import Mathlib

/-!
Verification of the installation stage of the wally package manager
(`src/installation.rs`), as a shallow embedding in Lean 4.

Paths are modelled as lists of path components (`List String`), archive
listings as ordered lists of file names, and the fallible filesystem /
network operations as explicit outcome parameters.
-/

namespace Wally

/-- A package identity: scope, name, version (`package_id.rs`, external to
`src/`, modelled from the spec: opaque comparable triple). -/
structure PackageId where
  scope : String
  name : String
  version : String
deriving DecidableEq, Repr

/-- The three installation realms (`manifest.rs`, external to `src/`,
modelled from the spec: `Shared | Server | Dev`). -/
inductive Realm where
  | shared
  | server
  | dev
deriving DecidableEq, Repr

/-- Function `package_id_file_name` (installation.rs:312-319):
`format!("{}_{}@{}", id.name().scope(), id.name().name(), id.version())`. -/
def package_id_file_name (id : PackageId) : String :=
  id.scope ++ "_" ++ id.name ++ "@" ++ id.version

/-- The `InstallationContext` structure (installation.rs:22-30): six
directory paths. -/
structure InstallationContext where
  shared_dir : List String
  shared_index_dir : List String
  server_dir : List String
  server_index_dir : List String
  dev_dir : List String
  dev_index_dir : List String
deriving DecidableEq, Repr

/-- Constructor `InstallationContext::new` (installation.rs:34-51): derives
the six directories from the project path. -/
def InstallationContext.new (project_path : List String) : InstallationContext :=
  let shared_dir := project_path ++ ["packages"]
  let server_dir := project_path ++ ["ServerPackages"]
  let dev_dir := project_path ++ ["DevPackages"]
  { shared_dir := shared_dir
    shared_index_dir := shared_dir ++ ["_index"]
    server_dir := server_dir
    server_index_dir := server_dir ++ ["_index"]
    dev_dir := dev_dir
    dev_index_dir := dev_dir ++ ["_index"] }

/-- The suffix-sniffing loop of `write_root_package_links`
(installation.rs:211-224): scans archive file names in order, with a
mutable `suffix` variable; a root-level `init.luau`/`init.lua` sets the
empty suffix and breaks; `src/init.luau`/`src/init.lua` records `"/src"`
and continues. -/
def rootLinksSniffLoop : Option String → List String → Option String
  | suffix, [] => suffix
  | suffix, file_name :: rest =>
    if file_name = "init.luau" ∨ file_name = "init.lua" then
      some ""
    else if file_name = "src/init.luau" ∨ file_name = "src/init.lua" then
      rootLinksSniffLoop (some "/src") rest
    else
      rootLinksSniffLoop suffix rest

/-- Entry-point suffix as computed inside `write_root_package_links`
(installation.rs:212-222): the loop starts from `suffix = None`. -/
def rootLinksSuffix (file_names : List String) : Option String :=
  rootLinksSniffLoop none file_names

/-- The textually duplicated suffix-sniffing loop of `write_package_links`
(installation.rs:268-279), transcribed from its own code site. -/
def packageLinksSniffLoop : Option String → List String → Option String
  | suffix, [] => suffix
  | suffix, file_name :: rest =>
    if file_name = "init.luau" ∨ file_name = "init.lua" then
      some ""
    else if file_name = "src/init.luau" ∨ file_name = "src/init.lua" then
      packageLinksSniffLoop (some "/src") rest
    else
      packageLinksSniffLoop suffix rest

/-- Entry-point suffix as computed inside `write_package_links`
(installation.rs:269-279): the loop starts from `suffix = None`. -/
def packageLinksSuffix (file_names : List String) : Option String :=
  packageLinksSniffLoop none file_names

/-- Function `link_sibling_same_index` (installation.rs:160-168): the
contents of a package-to-package link; `formatdoc!` yields the dedented
template with a trailing newline, and `suffix.unwrap_or("")` drops an
absent suffix. -/
def link_sibling_same_index (id : PackageId) (suffix : Option String) : String :=
  "return require(\"../../" ++ package_id_file_name id ++ suffix.getD "" ++ "\")\n"

/-- Function `link_root_same_index` (installation.rs:171-179): the contents
of a root-to-package link. -/
def link_root_same_index (id : PackageId) (suffix : Option String) : String :=
  "return require(\"_index/" ++ package_id_file_name id ++ suffix.getD "" ++ "\")\n"

/-- Base path chosen by `write_root_package_links` (installation.rs:190-194):
the tree root of the given realm. -/
def rootLinkBasePath (ctx : InstallationContext) : Realm → List String
  | .shared => ctx.shared_dir
  | .server => ctx.server_dir
  | .dev => ctx.dev_dir

/-- One iteration of the dependency loop of `write_root_package_links`
(installation.rs:199-228): for edge `(dep_name, dep_package_id)` and the
dependency archive's file listing, the path
`base_path.join(format!("{}.lua", dep_name))` and the contents
`link_root_same_index(dep_package_id, suffix)` written at it. -/
def writeRootPackageLinkFile (ctx : InstallationContext) (root_realm : Realm)
    (dep_name : String) (dep_package_id : PackageId) (listing : List String) :
    List String × String :=
  (rootLinkBasePath ctx root_realm ++ [dep_name ++ ".lua"],
   link_root_same_index dep_package_id (rootLinksSuffix listing))

/-- Base index path chosen by `write_package_links` (installation.rs:243-249):
the index root of the given realm with the owner's canonical name pushed. -/
def packageLinkBasePath (ctx : InstallationContext) (package_id : PackageId)
    (package_realm : Realm) : List String :=
  (match package_realm with
   | .shared => ctx.shared_index_dir
   | .server => ctx.server_index_dir
   | .dev => ctx.dev_index_dir) ++ [package_id_file_name package_id]

/-- One iteration of the dependency loop of `write_package_links`
(installation.rs:259-285): for owner `package_id`, edge
`(dep_name, dep_package_id)` and the dependency archive's file listing, the
path `base_path.join("packages").join(format!("{}.lua", dep_name))` and the
contents `link_sibling_same_index(dep_package_id, suffix)` written at it. -/
def writePackageLinkFile (ctx : InstallationContext) (package_id : PackageId)
    (package_realm : Realm) (dep_name : String) (dep_package_id : PackageId)
    (listing : List String) : List String × String :=
  (packageLinkBasePath ctx package_id package_realm ++ ["packages", dep_name ++ ".lua"],
   link_sibling_same_index dep_package_id (packageLinksSuffix listing))

/-- A filesystem effect of `write_contents`. -/
inductive FsEffect where
  | create_dir_all (path : List String)
  | unpack_into (path : List String)
deriving DecidableEq, Repr

/-- Target directory of `write_contents` (installation.rs:296-302): the
realm's index directory with the package's canonical name pushed. -/
def write_contents_dir (ctx : InstallationContext) (package_id : PackageId)
    (realm : Realm) : List String :=
  (match realm with
   | .shared => ctx.shared_index_dir
   | .server => ctx.server_index_dir
   | .dev => ctx.dev_index_dir) ++ [package_id_file_name package_id]

/-- Function `write_contents` (installation.rs:290-308): creates the target
directory recursively, then unpacks the archive contents into it. -/
def write_contents (ctx : InstallationContext) (package_id : PackageId)
    (realm : Realm) : List FsEffect :=
  [FsEffect.create_dir_all (write_contents_dir ctx package_id realm),
   FsEffect.unpack_into (write_contents_dir ctx package_id realm)]

/-- The fetch-and-materialize units scheduled by the `install` loop
(installation.rs:98-143): the root package is skipped (only its links are
written); every other activated package gets one unit, and line 138 passes
`Realm::Shared` to `write_contents` regardless of the package's realm. -/
def installMaterializations (root_package_id : PackageId)
    (activated : List PackageId) : List (PackageId × Realm) :=
  activated.filterMap fun package_id =>
    if package_id = root_package_id then none
    else some (package_id, Realm.shared)

/-- The progress-bar length (installation.rs:82):
`(resolved_copy.activated.len() - 1) as u64`; the `usize` subtraction is
modelled as checked subtraction, `none` marking arithmetic underflow. -/
def progressBarLen (activated : List PackageId) : Option Nat :=
  if activated.length = 0 then none else some (activated.length - 1)

/-- The join loop of `install` (installation.rs:147-151): awaits the handles
in order; the first `Err` result propagates through `?` and terminates
`install` with that error, and nothing further runs in the function. -/
def joinHandles : List (Except String Unit) → Except String Unit
  | [] => Except.ok ()
  | Except.ok _ :: rest => joinHandles rest
  | Except.error e :: _ => Except.error e

/-- Outcome of one `remove_dir_all` call, as seen by `clean`. -/
inductive RemoveOutcome where
  | removed
  | notFound
  | err (e : String)
deriving DecidableEq, Repr

/-- Helper `remove_ignore_not_found` (installation.rs:55-63): a not-found
error is swallowed, any other error is returned. -/
def remove_ignore_not_found : RemoveOutcome → Except String Unit
  | RemoveOutcome.removed => Except.ok ()
  | RemoveOutcome.notFound => Except.ok ()
  | RemoveOutcome.err e => Except.error e

/-- Method `clean` (installation.rs:54-70): removes the three tree roots in
order, through `remove_ignore_not_found`; `fs` gives the outcome of
`remove_dir_all` at each path. -/
def InstallationContext.clean (ctx : InstallationContext)
    (fs : List String → RemoveOutcome) : Except String Unit := do
  remove_ignore_not_found (fs ctx.shared_dir)
  remove_ignore_not_found (fs ctx.server_dir)
  remove_ignore_not_found (fs ctx.dev_dir)

/-- The slice of `Resolve` the installer consumes (resolution.rs, external
to `src/`, modelled from the spec, section 6: activated set, shared-realm
dependency edges per package, and the source registry named by each
package's metadata). -/
structure Resolve where
  activated : List PackageId
  shared_dependencies : PackageId → Option (List (String × PackageId))
  metadata : PackageId → String

/-- The source-map lookups performed by `write_root_package_links`
(installation.rs:203-207): one per dependency edge, at the registry named
by the dependency's metadata. -/
def rootLinksRegistries (resolved : Resolve)
    (deps : List (String × PackageId)) : List String :=
  deps.map fun d => resolved.metadata d.2

/-- The source-map lookup performed by `write_package_links`
(installation.rs:255-257): one per owner, at the registry named by the
owner's metadata. -/
def packageLinksRegistries (resolved : Resolve) (package_id : PackageId) :
    List String :=
  [resolved.metadata package_id]

/-- All source-map lookups performed by an `install` run, in order
(installation.rs:98-143): for the root package, one per dependency edge
inside `write_root_package_links`; for every other package, one inside
`write_package_links` when it has dependencies, plus one inside the
spawned unit (installation.rs:121-127). -/
def installRegistryLookups (root_package_id : PackageId) (resolved : Resolve) :
    List String :=
  (resolved.activated.map fun package_id =>
    if package_id = root_package_id then
      match resolved.shared_dependencies package_id with
      | some deps => rootLinksRegistries resolved deps
      | none => []
    else
      (match resolved.shared_dependencies package_id with
       | some _ => packageLinksRegistries resolved package_id
       | none => []) ++ [resolved.metadata package_id]).flatten

/-- The packages whose resolved metadata the run consults: every activated
package, and every dependency target of an activated package. -/
def processedPackages (resolved : Resolve) : List PackageId :=
  resolved.activated ++
    (resolved.activated.map fun package_id =>
      match resolved.shared_dependencies package_id with
      | some deps => deps.map fun d => d.2
      | none => []).flatten

/-- Running the lookups against a source map: each `sources.get(...)` site
ends in `.unwrap()` (installation.rs:127, 207, 257), so the first absent
registry aborts the run (`none` models the panic); otherwise the run
continues past all lookups. -/
def runLookups (sources : String → Option Unit) : List String → Option Unit
  | [] => some ()
  | r :: rest =>
    match sources r with
    | some _ => runLookups sources rest
    | none => none

/-- The source-lookup skeleton of one whole `install` run. -/
def installSourceLookupRun (sources : String → Option Unit)
    (root_package_id : PackageId) (resolved : Resolve) : Option Unit :=
  runLookups sources (installRegistryLookups root_package_id resolved)

/-- A file name is a root-level init module: the first condition of the
sniffing loops (installation.rs:215, 272). -/
def isRootInit (f : String) : Prop :=
  f = "init.luau" ∨ f = "init.lua"

/-- A file name is a src-nested init module: the second condition of the
sniffing loops (installation.rs:218, 275). -/
def isSrcInit (f : String) : Prop :=
  f = "src/init.luau" ∨ f = "src/init.lua"

instance (f : String) : Decidable (isRootInit f) := by
  unfold isRootInit; infer_instance

instance (f : String) : Decidable (isSrcInit f) := by
  unfold isSrcInit; infer_instance

/-- The sniffing loop of `write_root_package_links`, characterized for the
accumulator values it can actually hold (`None` initially, `Some "/src"`
after a src-nested hit): a root-level init anywhere forces the empty
suffix, else a src-nested init anywhere forces `"/src"`, else the
accumulator survives. -/
theorem rootLinksSniffLoop_characterize (l : List String) :
    ∀ acc : Option String, acc = none ∨ acc = some "/src" →
      rootLinksSniffLoop acc l =
        if ∃ f ∈ l, isRootInit f then some ""
        else if ∃ f ∈ l, isSrcInit f then some "/src"
        else acc := by
  induction l with
  | nil =>
    intro acc _
    simp [rootLinksSniffLoop]
  | cons g rest ih =>
    intro acc hacc
    rw [rootLinksSniffLoop]
    by_cases hr : g = "init.luau" ∨ g = "init.lua"
    · have hmem : ∃ f ∈ g :: rest, isRootInit f := ⟨g, List.mem_cons_self g rest, hr⟩
      rw [if_pos hr, if_pos hmem]
    · have hrootCons : (∃ f ∈ g :: rest, isRootInit f) ↔ ∃ f ∈ rest, isRootInit f := by
        constructor
        · rintro ⟨f, hf, hfr⟩
          rcases List.mem_cons.mp hf with rfl | hf2
          · exact absurd hfr hr
          · exact ⟨f, hf2, hfr⟩
        · rintro ⟨f, hf, hfr⟩
          exact ⟨f, List.mem_cons_of_mem g hf, hfr⟩
      by_cases hs : g = "src/init.luau" ∨ g = "src/init.lua"
      · have hsrcMem : ∃ f ∈ g :: rest, isSrcInit f := ⟨g, List.mem_cons_self g rest, hs⟩
        rw [if_neg hr, if_pos hs, ih (some "/src") (Or.inr rfl)]
        simp only [hrootCons, eq_true hsrcMem, if_true, ite_self]
      · have hsrcCons : (∃ f ∈ g :: rest, isSrcInit f) ↔ ∃ f ∈ rest, isSrcInit f := by
          constructor
          · rintro ⟨f, hf, hfs⟩
            rcases List.mem_cons.mp hf with rfl | hf2
            · exact absurd hfs hs
            · exact ⟨f, hf2, hfs⟩
          · rintro ⟨f, hf, hfs⟩
            exact ⟨f, List.mem_cons_of_mem g hf, hfs⟩
        rw [if_neg hr, if_neg hs, ih acc hacc]
        simp only [hrootCons, hsrcCons]

/-- The two textually duplicated sniffing loops agree on every accumulator
and every listing. -/
theorem sniffLoops_agree_aux (l : List String) :
    ∀ acc : Option String, rootLinksSniffLoop acc l = packageLinksSniffLoop acc l := by
  induction l with
  | nil => intro acc; rfl
  | cons g rest ih =>
    intro acc
    rw [rootLinksSniffLoop, packageLinksSniffLoop]
    by_cases hr : g = "init.luau" ∨ g = "init.lua"
    · rw [if_pos hr, if_pos hr]
    · by_cases hs : g = "src/init.luau" ∨ g = "src/init.lua"
      · rw [if_neg hr, if_neg hr, if_pos hs, if_pos hs, ih]
      · rw [if_neg hr, if_neg hr, if_neg hs, if_neg hs, ih]

/-- The entry-point suffix of `write_root_package_links`, in closed form. -/
theorem rootLinksSuffix_eq (l : List String) :
    rootLinksSuffix l =
      if ∃ f ∈ l, isRootInit f then some ""
      else if ∃ f ∈ l, isSrcInit f then some "/src"
      else none :=
  rootLinksSniffLoop_characterize l none (Or.inl rfl)

/-- The sniffed suffix is empty exactly when some entry is a root init. -/
theorem rootLinksSuffix_eq_some_empty_iff (l : List String) :
    rootLinksSuffix l = some "" ↔ ∃ f ∈ l, isRootInit f := by
  rw [rootLinksSuffix_eq]
  by_cases h1 : ∃ f ∈ l, isRootInit f
  · simp [h1]
  · by_cases h2 : ∃ f ∈ l, isSrcInit f
    · simp only [if_neg h1, if_pos h2]
      constructor
      · intro h
        exact absurd (Option.some.inj h) (by decide)
      · intro h
        exact absurd h h1
    · simp only [if_neg h1, if_neg h2]
      constructor
      · intro h
        exact Option.noConfusion h
      · intro h
        exact absurd h h1

/-- The sniffed suffix is `"/src"` exactly when no entry is a root init and
some entry is a src-nested init. -/
theorem rootLinksSuffix_eq_some_src_iff (l : List String) :
    rootLinksSuffix l = some "/src" ↔
      (∀ f ∈ l, ¬ isRootInit f) ∧ ∃ f ∈ l, isSrcInit f := by
  rw [rootLinksSuffix_eq]
  by_cases h1 : ∃ f ∈ l, isRootInit f
  · simp only [if_pos h1]
    constructor
    · intro h
      exact absurd (Option.some.inj h) (by decide)
    · rintro ⟨hno, _⟩
      obtain ⟨f, hf, hfr⟩ := h1
      exact absurd hfr (hno f hf)
  · by_cases h2 : ∃ f ∈ l, isSrcInit f
    · simp only [if_neg h1, if_pos h2]
      constructor
      · intro _
        exact ⟨fun f hf hfr => h1 ⟨f, hf, hfr⟩, h2⟩
      · intro _
        trivial
    · simp only [if_neg h1, if_neg h2]
      constructor
      · intro h
        exact Option.noConfusion h
      · rintro ⟨_, hsome⟩
        exact absurd hsome h2

/-- The sniffed suffix is absent exactly when no entry is a root init or a
src-nested init. -/
theorem rootLinksSuffix_eq_none_iff (l : List String) :
    rootLinksSuffix l = none ↔ ∀ f ∈ l, ¬ isRootInit f ∧ ¬ isSrcInit f := by
  rw [rootLinksSuffix_eq]
  by_cases h1 : ∃ f ∈ l, isRootInit f
  · simp only [if_pos h1]
    constructor
    · intro h
      exact Option.noConfusion h
    · intro h
      obtain ⟨f, hf, hfr⟩ := h1
      exact absurd hfr (h f hf).1
  · by_cases h2 : ∃ f ∈ l, isSrcInit f
    · simp only [if_neg h1, if_pos h2]
      constructor
      · intro h
        exact Option.noConfusion h
      · intro h
        obtain ⟨f, hf, hfs⟩ := h2
        exact absurd hfs (h f hf).2
    · simp only [if_neg h1, if_neg h2]
      constructor
      · intro _ f hf
        exact ⟨fun hr => h1 ⟨f, hf, hr⟩, fun hs => h2 ⟨f, hf, hs⟩⟩
      · intro _
        trivial

/-- C1: the entry-point suffix is computed by scanning entries in listing
order; a root-level `init.lua`/`init.luau` fixes the empty suffix
(scanning stops, so a root init anywhere wins), a `src/init.lua(u)` records
`"/src"` but a later root init still overrides it, exhaustion with no match
yields `none` and the link is still generated in the no-suffix form; and
the four concrete listings of the claim evaluate as stated. -/
theorem C1_entry_point_suffix :
    (∀ l : List String, rootLinksSuffix l = some "" ↔ ∃ f ∈ l, isRootInit f) ∧
    (∀ l : List String, rootLinksSuffix l = some "/src" ↔
        (∀ f ∈ l, ¬ isRootInit f) ∧ ∃ f ∈ l, isSrcInit f) ∧
    (∀ l : List String, rootLinksSuffix l = none ↔
        ∀ f ∈ l, ¬ isRootInit f ∧ ¬ isSrcInit f) ∧
    (∀ id : PackageId,
        link_root_same_index id none = link_root_same_index id (some "") ∧
        link_sibling_same_index id none = link_sibling_same_index id (some "")) ∧
    rootLinksSuffix ["src/init.lua"] = some "/src" ∧
    rootLinksSuffix ["src/init.lua", "init.lua"] = some "" ∧
    rootLinksSuffix ["init.lua", "src/init.lua"] = some "" ∧
    rootLinksSuffix [] = none :=
  ⟨rootLinksSuffix_eq_some_empty_iff, rootLinksSuffix_eq_some_src_iff,
   rootLinksSuffix_eq_none_iff, fun _ => ⟨rfl, rfl⟩,
   by decide, by decide, by decide, rfl⟩

/-- C9: the two textually duplicated suffix-sniffing loops — the one in
`write_root_package_links` and the one in `write_package_links` — compute
the same function on every archive listing. -/
theorem C9_duplicated_sniff_loops_equal (l : List String) :
    rootLinksSuffix l = packageLinksSuffix l :=
  sniffLoops_agree_aux l none

/-- C2: a direct dependency of the root package with alias `dep_name` gets
a link file at `tree_root/dep_name.lua` redirecting to
`_index/{canonical_id}{suffix}`, and a dependency of a non-root owner gets
a link file at `index_root/{canonical_owner}/packages/dep_name.lua`
redirecting to `../../{canonical_dep}{suffix}` (contents as produced by
`formatdoc!`, one line ended by a newline). -/
theorem C2_link_file_locations_and_contents (ctx : InstallationContext)
    (dep_name : String) (dep_package_id owner : PackageId)
    (listing : List String) :
    writeRootPackageLinkFile ctx Realm.shared dep_name dep_package_id listing =
      (ctx.shared_dir ++ [dep_name ++ ".lua"],
       "return require(\"_index/" ++ package_id_file_name dep_package_id ++
         (rootLinksSuffix listing).getD "" ++ "\")\n") ∧
    writePackageLinkFile ctx owner Realm.shared dep_name dep_package_id listing =
      (ctx.shared_index_dir ++
         [package_id_file_name owner, "packages", dep_name ++ ".lua"],
       "return require(\"../../" ++ package_id_file_name dep_package_id ++
         (packageLinksSuffix listing).getD "" ++ "\")\n") := by
  constructor
  · rfl
  · simp [writePackageLinkFile, packageLinkBasePath, link_sibling_same_index,
      package_id_file_name]

/-- Splitting a list at a separator that occurs in neither left part is
unambiguous. -/
theorem append_sep_inj {c : Char} :
    ∀ {a a2 b b2 : List Char}, c ∉ a → c ∉ a2 →
      a ++ c :: b = a2 ++ c :: b2 → a = a2 ∧ b = b2 := by
  intro a
  induction a with
  | nil =>
    intro a2 b b2 _ h2 heq
    cases a2 with
    | nil =>
      rw [List.nil_append, List.nil_append] at heq
      exact ⟨rfl, (List.cons.inj heq).2⟩
    | cons x xs =>
      rw [List.nil_append, List.cons_append] at heq
      obtain ⟨hcx, _⟩ := List.cons.inj heq
      exact absurd (hcx ▸ List.mem_cons_self x xs) h2
  | cons x xs ih =>
    intro a2 b b2 h1 h2 heq
    cases a2 with
    | nil =>
      rw [List.cons_append, List.nil_append] at heq
      obtain ⟨hxc, _⟩ := List.cons.inj heq
      exact absurd (hxc ▸ List.mem_cons_self x xs) h1
    | cons y ys =>
      rw [List.cons_append, List.cons_append] at heq
      obtain ⟨hxy, htail⟩ := List.cons.inj heq
      have hx : c ∉ xs := fun h => h1 (List.mem_cons_of_mem x h)
      have hy : c ∉ ys := fun h => h2 (List.mem_cons_of_mem y h)
      obtain ⟨he, hb⟩ := ih hx hy htail
      subst hxy
      subst he
      exact ⟨rfl, hb⟩

/-- The characters of a canonical file name, as an explicit split. -/
theorem package_id_file_name_data (id : PackageId) :
    (package_id_file_name id).data =
      id.scope.data ++ '_' :: (id.name.data ++ '@' :: id.version.data) := by
  simp [package_id_file_name, String.data_append]

/-- C4 counterexample: two distinct package identities whose canonical
directory names coincide, because the scope may itself contain the
underscore separator. -/
theorem C4_counterexample_file_name_collision :
    package_id_file_name { scope := "a_b", name := "c", version := "1.0.0" } =
      package_id_file_name { scope := "a", name := "b_c", version := "1.0.0" } ∧
    ({ scope := "a_b", name := "c", version := "1.0.0" } : PackageId) ≠
      { scope := "a", name := "b_c", version := "1.0.0" } := by
  constructor
  · decide
  · decide

/-- C4 (amended): the canonical name `{scope}_{name}@{version}` is
injective on identities whose scope contains no underscore and whose name
contains no at-sign (wally package names are validated elsewhere to
lowercase alphanumerics and dashes, so installable identities satisfy
this); and the name is stable: the same identity always yields the same
name, the function being pure. -/
theorem C4_file_name_injective_on_separator_free_ids :
    (∀ id1 id2 : PackageId,
        '_' ∉ id1.scope.data → '_' ∉ id2.scope.data →
        '@' ∉ id1.name.data → '@' ∉ id2.name.data →
        package_id_file_name id1 = package_id_file_name id2 → id1 = id2) ∧
    (∀ id : PackageId, package_id_file_name id = package_id_file_name id) := by
  constructor
  · intro id1 id2 hs1 hs2 hn1 hn2 heq
    have hdata := congrArg String.data heq
    rw [package_id_file_name_data, package_id_file_name_data] at hdata
    obtain ⟨hscope, hrest⟩ := append_sep_inj hs1 hs2 hdata
    obtain ⟨hname, hver⟩ := append_sep_inj hn1 hn2 hrest
    obtain ⟨s1, n1, v1⟩ := id1
    obtain ⟨s2, n2, v2⟩ := id2
    simp only at hscope hname hver
    rw [String.ext hscope, String.ext hname, String.ext hver]
  · intro _
    rfl

/-- C4 witness: the amended injectivity applied at two concrete,
separator-free identities with equal canonical names. -/
theorem C4_witness :
    ({ scope := "scope", name := "pkg-name", version := "1.0.0" } : PackageId) =
      { scope := "scope", name := "pkg-name", version := "1.0.0" } :=
  C4_file_name_injective_on_separator_free_ids.1
    { scope := "scope", name := "pkg-name", version := "1.0.0" }
    { scope := "scope", name := "pkg-name", version := "1.0.0" }
    (by decide) (by decide) (by decide) (by decide) rfl

/-- Under `InstallationContext::new`, the Shared index directory of a
package differs from its Server and Dev index directories. -/
theorem write_contents_dir_shared_ne (project_path : List String)
    (id : PackageId) :
    write_contents_dir (InstallationContext.new project_path) id Realm.shared ≠
      write_contents_dir (InstallationContext.new project_path) id Realm.server ∧
    write_contents_dir (InstallationContext.new project_path) id Realm.shared ≠
      write_contents_dir (InstallationContext.new project_path) id Realm.dev := by
  constructor <;>
  · intro h
    simp only [write_contents_dir, InstallationContext.new, List.append_assoc] at h
    have h2 := List.append_cancel_left h
    exact absurd (List.cons.inj h2).1 (by decide)

/-- C3: every fetch-and-materialize unit scheduled by `install` is for a
non-root activated package, carries `Realm::Shared` regardless of the
package graph's realm attribution, and its `write_contents` creates the
Shared index directory for the canonical identity recursively before
unpacking into it — never a Server or Dev index directory; conversely,
every non-root activated package gets such a unit. -/
theorem C3_materialize_into_shared_index (project_path : List String)
    (root_package_id : PackageId) (activated : List PackageId) :
    (∀ u ∈ installMaterializations root_package_id activated,
        u.1 ∈ activated ∧ u.1 ≠ root_package_id ∧ u.2 = Realm.shared ∧
        write_contents (InstallationContext.new project_path) u.1 u.2 =
          [FsEffect.create_dir_all
              ((InstallationContext.new project_path).shared_index_dir ++
                [package_id_file_name u.1]),
           FsEffect.unpack_into
              ((InstallationContext.new project_path).shared_index_dir ++
                [package_id_file_name u.1])] ∧
        write_contents_dir (InstallationContext.new project_path) u.1 u.2 ≠
          write_contents_dir (InstallationContext.new project_path) u.1 Realm.server ∧
        write_contents_dir (InstallationContext.new project_path) u.1 u.2 ≠
          write_contents_dir (InstallationContext.new project_path) u.1 Realm.dev) ∧
    (∀ package_id ∈ activated, package_id ≠ root_package_id →
        (package_id, Realm.shared) ∈
          installMaterializations root_package_id activated) := by
  constructor
  · intro u hu
    obtain ⟨pid, hpid, hsome⟩ := List.mem_filterMap.mp hu
    by_cases hroot : pid = root_package_id
    · rw [if_pos hroot] at hsome
      exact Option.noConfusion hsome
    · rw [if_neg hroot] at hsome
      obtain rfl := Option.some.inj hsome
      refine ⟨hpid, hroot, rfl, rfl, ?_, ?_⟩
      · exact (write_contents_dir_shared_ne project_path pid).1
      · exact (write_contents_dir_shared_ne project_path pid).2
  · intro package_id hmem hne
    exact List.mem_filterMap.mpr ⟨package_id, hmem, by rw [if_neg hne]⟩

/-- C3 witness: a concrete two-package activated set; the non-root package
is materialized under the Shared index root. -/
theorem C3_witness :
    write_contents (InstallationContext.new ["proj"])
        { scope := "a", name := "b", version := "1.0.0" } Realm.shared =
      [FsEffect.create_dir_all ["proj", "packages", "_index", "a_b@1.0.0"],
       FsEffect.unpack_into ["proj", "packages", "_index", "a_b@1.0.0"]] := by
  have h := (C3_materialize_into_shared_index ["proj"]
      { scope := "r", name := "r", version := "1.0.0" }
      [{ scope := "r", name := "r", version := "1.0.0" },
       { scope := "a", name := "b", version := "1.0.0" }]).1
      ({ scope := "a", name := "b", version := "1.0.0" }, Realm.shared)
      (by decide)
  exact h.2.2.2.1.trans (by decide)

/-- All-ok handle results join to ok. -/
theorem joinHandles_ok_of_all_ok :
    ∀ oks : List (Except String Unit),
      (∀ r ∈ oks, r = Except.ok ()) → joinHandles oks = Except.ok () := by
  intro oks
  induction oks with
  | nil =>
    intro _
    rfl
  | cons r xs ih =>
    intro h
    have hr := h r (List.mem_cons_self r xs)
    subst hr
    exact ih fun r2 h2 => h r2 (List.mem_cons_of_mem _ h2)

/-- The first error among the joined results is the result of the join. -/
theorem joinHandles_first_error :
    ∀ (oks rest : List (Except String Unit)) (e : String),
      (∀ r ∈ oks, r = Except.ok ()) →
      joinHandles (oks ++ Except.error e :: rest) = Except.error e := by
  intro oks
  induction oks with
  | nil =>
    intro rest e _
    rfl
  | cons r xs ih =>
    intro rest e h
    have hr := h r (List.mem_cons_self r xs)
    subst hr
    exact ih rest e fun r2 h2 => h r2 (List.mem_cons_of_mem _ h2)

/-- C5: during the join phase, the first failed unit terminates the run
with that unit's error, whatever the results of the remaining units (no
retry, no compensation touches them); with no failed unit the join
succeeds. -/
theorem C5_first_join_failure_fatal (oks rest : List (Except String Unit))
    (e : String) (h : ∀ r ∈ oks, r = Except.ok ()) :
    joinHandles (oks ++ Except.error e :: rest) = Except.error e ∧
    joinHandles oks = Except.ok () :=
  ⟨joinHandles_first_error oks rest e h, joinHandles_ok_of_all_ok oks h⟩

/-- C5 witness: two successful units, then a failure, then further results
that do not affect the outcome. -/
theorem C5_witness :
    joinHandles [Except.ok (), Except.error "boom", Except.error "later",
        Except.ok ()] = Except.error "boom" ∧
    joinHandles [Except.ok ()] = Except.ok () :=
  C5_first_join_failure_fatal [Except.ok ()]
    [Except.error "later", Except.ok ()] "boom"
    fun _ hr => List.mem_singleton.mp hr

/-- If every looked-up registry is present, the lookup run completes. -/
theorem runLookups_eq_some_of_all (sources : String → Option Unit) :
    ∀ l : List String, (∀ r ∈ l, (sources r).isSome) →
      runLookups sources l = some () := by
  intro l
  induction l with
  | nil =>
    intro _
    rfl
  | cons r rest ih =>
    intro h
    have hr := h r (List.mem_cons_self r rest)
    cases hsrc : sources r with
    | none =>
      rw [hsrc] at hr
      exact absurd hr (by simp)
    | some u =>
      simp only [runLookups, hsrc]
      exact ih fun r2 h2 => h r2 (List.mem_cons_of_mem _ h2)

/-- If any looked-up registry is absent, the lookup run aborts. -/
theorem runLookups_eq_none_of_mem (sources : String → Option Unit) :
    ∀ l : List String, ∀ r ∈ l, sources r = none →
      runLookups sources l = none := by
  intro l
  induction l with
  | nil =>
    intro r hr
    cases hr
  | cons x xs ih =>
    intro r hr hnone
    rcases List.mem_cons.mp hr with rfl | h2
    · simp [runLookups, hnone]
    · cases hsrc : sources x with
      | none => simp [runLookups, hsrc]
      | some u =>
        simp only [runLookups, hsrc]
        exact ih r h2 hnone

/-- Every registry the run looks up is named by the resolved metadata of a
processed package (an activated package or a dependency target of one). -/
theorem installRegistryLookups_subset (root_package_id : PackageId)
    (resolved : Resolve) :
    ∀ r ∈ installRegistryLookups root_package_id resolved,
      ∃ q ∈ processedPackages resolved, r = resolved.metadata q := by
  intro r hr
  rw [installRegistryLookups] at hr
  obtain ⟨sub, hsub, hrsub⟩ := List.mem_flatten.mp hr
  obtain ⟨pid, hpid, hmap⟩ := List.mem_map.mp hsub
  subst hmap
  by_cases hroot : pid = root_package_id
  · rw [if_pos hroot] at hrsub
    cases hdeps : resolved.shared_dependencies pid with
    | none =>
      rw [hdeps] at hrsub
      cases hrsub
    | some deps =>
      rw [hdeps] at hrsub
      obtain ⟨d, hd, hdr⟩ := List.mem_map.mp hrsub
      refine ⟨d.2, ?_, hdr.symm⟩
      rw [processedPackages]
      refine List.mem_append.mpr (Or.inr ?_)
      refine List.mem_flatten.mpr ⟨deps.map fun d2 => d2.2, ?_, ?_⟩
      · refine List.mem_map.mpr ⟨pid, hpid, ?_⟩
        rw [hdeps]
      · exact List.mem_map.mpr ⟨d, hd, rfl⟩
  · rw [if_neg hroot] at hrsub
    have hp : pid ∈ processedPackages resolved := by
      rw [processedPackages]
      exact List.mem_append.mpr (Or.inl hpid)
    rcases List.mem_append.mp hrsub with hl | hrl
    · cases hdeps : resolved.shared_dependencies pid with
      | none =>
        rw [hdeps] at hl
        cases hl
      | some deps =>
        rw [hdeps] at hl
        exact ⟨pid, hp, List.mem_singleton.mp hl⟩
    · exact ⟨pid, hp, List.mem_singleton.mp hrl⟩

/-- C6: under the precondition that every registry named by the resolved
metadata of a processed package is present in the source map, no lookup
performed by `install`, `write_root_package_links`, or
`write_package_links` can observe an absent registry (the unwrap is safe)
and the lookup run completes; and whenever a performed lookup does hit an
absent registry, the run stops instead of continuing. -/
theorem C6_missing_registry_branch_unreachable (sources : String → Option Unit)
    (root_package_id : PackageId) (resolved : Resolve) :
    ((∀ q ∈ processedPackages resolved,
          (sources (resolved.metadata q)).isSome) →
        (∀ r ∈ installRegistryLookups root_package_id resolved,
            (sources r).isSome) ∧
        installSourceLookupRun sources root_package_id resolved = some ()) ∧
    (∀ r ∈ installRegistryLookups root_package_id resolved,
        sources r = none →
        installSourceLookupRun sources root_package_id resolved = none) := by
  constructor
  · intro hpre
    have hall : ∀ r ∈ installRegistryLookups root_package_id resolved,
        (sources r).isSome := by
      intro r hr
      obtain ⟨q, hq, hrq⟩ :=
        installRegistryLookups_subset root_package_id resolved r hr
      rw [hrq]
      exact hpre q hq
    exact ⟨hall, runLookups_eq_some_of_all sources _ hall⟩
  · intro r hr hnone
    exact runLookups_eq_none_of_mem sources _ r hr hnone

/-- C6 witness: a concrete resolve whose two activated packages name a
registry present in the source map; the lookup run completes. -/
theorem C6_witness :
    installSourceLookupRun (fun _ => some ())
        { scope := "r", name := "r", version := "1.0.0" }
        { activated := [{ scope := "r", name := "r", version := "1.0.0" },
                        { scope := "a", name := "b", version := "1.0.0" }],
          shared_dependencies := fun _ => none,
          metadata := fun _ => "registry" } = some () :=
  ((C6_missing_registry_branch_unreachable (fun _ => some ()) _ _).1
    fun _ _ => rfl).2

/-- C7: `clean` succeeds exactly when none of the three realm tree-root
removals reports an error other than not-found — so absence of a directory
is success, any other filesystem error is a failure of `clean` — and on a
project with no existing package directories it succeeds as a no-op. -/
theorem C7_clean_removes_three_realms (ctx : InstallationContext)
    (fs : List String → RemoveOutcome) :
    (InstallationContext.clean ctx fs = Except.ok () ↔
        ∀ d ∈ [ctx.shared_dir, ctx.server_dir, ctx.dev_dir],
          ∀ e, fs d ≠ RemoveOutcome.err e) ∧
    ((∀ d ∈ [ctx.shared_dir, ctx.server_dir, ctx.dev_dir],
          fs d = RemoveOutcome.notFound) →
        InstallationContext.clean ctx fs = Except.ok ()) := by
  rcases hsh : fs ctx.shared_dir with _ | _ | e1 <;>
    rcases hse : fs ctx.server_dir with _ | _ | e2 <;>
      rcases hde : fs ctx.dev_dir with _ | _ | e3 <;>
        simp [InstallationContext.clean, remove_ignore_not_found, hsh, hse, hde,
          Bind.bind, Except.bind]

/-- C7 witness: a project with none of the three directories present;
`clean` is a successful no-op. -/
theorem C7_witness :
    InstallationContext.clean (InstallationContext.new ["proj"])
        (fun _ => RemoveOutcome.notFound) = Except.ok () :=
  (C7_clean_removes_three_realms (InstallationContext.new ["proj"])
    (fun _ => RemoveOutcome.notFound)).2 fun _ _ => rfl

/-- The number of scheduled fetch units is the number of activated
packages minus the occurrences of the root id. -/
theorem installMaterializations_length (root_package_id : PackageId) :
    ∀ activated : List PackageId,
      (installMaterializations root_package_id activated).length =
        activated.length - activated.count root_package_id := by
  intro activated
  induction activated with
  | nil => rfl
  | cons x xs ih =>
    by_cases hx : x = root_package_id
    · subst hx
      simp only [installMaterializations, List.filterMap_cons, if_pos rfl,
        List.count_cons_self, List.length_cons]
      rw [Nat.succ_sub_succ]
      exact ih
    · have hcount := List.count_le_length root_package_id xs
      simp only [installMaterializations, List.filterMap_cons, if_neg hx,
        List.length_cons, List.count_cons_of_ne (fun h => hx h.symm)]
      rw [installMaterializations] at ih
      rw [ih]
      omega

/-- C10: the progress-bar length underflows on an empty activated set;
under the precondition that the activated set contains the root package
exactly once, it is well-defined and equals the number of scheduled
non-root fetch units. -/
theorem C10_progress_bar_length (root_package_id : PackageId)
    (activated : List PackageId) :
    progressBarLen ([] : List PackageId) = none ∧
    (activated.count root_package_id = 1 →
        progressBarLen activated = some (activated.length - 1) ∧
        activated.length - 1 =
          (installMaterializations root_package_id activated).length) := by
  refine ⟨rfl, fun hcount => ?_⟩
  have hmem : root_package_id ∈ activated := by
    apply List.count_pos_iff.mp
    omega
  have hlen : ¬ activated.length = 0 := by
    intro h0
    rw [List.length_eq_zero] at h0
    subst h0
    cases hmem
  constructor
  · rw [progressBarLen, if_neg hlen]
  · rw [installMaterializations_length root_package_id activated, hcount]

/-- C10 witness: a two-element activated set containing the root once; the
bar length is 1, the number of non-root packages. -/
theorem C10_witness :
    progressBarLen [{ scope := "r", name := "r", version := "1.0.0" },
        { scope := "a", name := "b", version := "1.0.0" }] = some 1 ∧
    (1 : Nat) = (installMaterializations
        { scope := "r", name := "r", version := "1.0.0" }
        [{ scope := "r", name := "r", version := "1.0.0" },
         { scope := "a", name := "b", version := "1.0.0" }]).length :=
  (C10_progress_bar_length { scope := "r", name := "r", version := "1.0.0" }
    [{ scope := "r", name := "r", version := "1.0.0" },
     { scope := "a", name := "b", version := "1.0.0" }]).2 (by decide)

end Wally
